import Mathlib

/-!
Verification of the bitmap-font text-layout engine of the
endless-sky-multilang repository (source/text/Font.cpp): codepoint
resolution with substitution, the width-measurement loop, the
pixel-scanning advance-table computation, and width-constrained
truncation via binary search over retained codepoint counts.

Strings are modelled at the codepoint level as lists of natural numbers
(the UTF-8 decoder, source/text/Utf8.cpp, is not part of the excerpt;
where a claim depends on it, it is modelled from the specification and
marked as such).  C++ `int` arithmetic is modelled with `Int` (using
`Int.tdiv`, truncation toward zero, for `/`), and unsigned codepoint and
pixel values with `Nat`.
-/

namespace ES

/-- Glyph count of the basic sheet-mode roster: ASCII 0x20-0x7E in slots
0-94, slot 95 unused by the linear map (the map is clamped to
glyphCount - 3 = 95), and the two curly-quote slots 96 and 97.  The
constant lives in Font.h which is outside the excerpt; its value 98 is
fixed by the clamped ASCII map and the quote slots in Font.cpp. -/
def GLYPHS : Nat := 98

/-- Glyph count of the extended (TTF rasterize-mode) roster: the comment
and the codepoint list in Font::LoadFromTtf enumerate exactly 167
codepoints (95 ASCII, question mark, two curly quotes, 66 Cyrillic
letters, em dash and two guillemets). -/
def GLYPHS_EXTENDED : Nat := 167

/-- Font.cpp SubstituteUnsupported: substitute codepoint for unsupported
special characters, or 0 if none. -/
def SubstituteUnsupported (codepoint : Nat) : Nat :=
  if codepoint = 0xA0 then 0x20
  else if codepoint = 0x2009 then 0x20
  else if codepoint = 0x2010 ∨ codepoint = 0x2011 ∨ codepoint = 0x2012 ∨ codepoint = 0x2013
    then 0x2D
  else if codepoint = 0x2019 ∨ codepoint = 0x201A ∨ codepoint = 0x201B then 0x27
  else if codepoint = 0x201D ∨ codepoint = 0x201E ∨ codepoint = 0x201F then 0x22
  else if codepoint = 0x2026 ∨ codepoint = 0x2033 ∨ codepoint = 0x2036 then 0x20
  else 0

/-- The invalid-codepoint marker 0xFFFFFFFF checked by
Font::GlyphForCodepoint (and returned by the decoder on failure). -/
def invalidCp : Nat := 0xFFFFFFFF

/-- Body of Font::GlyphForCodepoint with the result of the single
substitution retry passed in as `subResult` (the C++ function recurses on
the substitute; `glyphForCodepoint_fix` below proves that the unrolled
definition satisfies the source's recursive equation, so it is the unique
fixpoint of that recursion).  `max 0 (min ...)` of the C++ is `min` here
since the operands are naturals. -/
def GlyphForCodepointCore (glyphCount codepoint : Nat) (isAfterSpace : Bool)
    (subResult : Nat) : Nat :=
  if (codepoint = 0x27 ∨ codepoint = 0x2018) ∧ isAfterSpace = true then 96
  else if (codepoint = 0x22 ∨ codepoint = 0x201C) ∧ isAfterSpace = true then 97
  else if 32 ≤ codepoint ∧ codepoint ≤ 126 then min (glyphCount - 3) (codepoint - 32)
  else if glyphCount = GLYPHS_EXTENDED ∧ 0x410 ≤ codepoint ∧ codepoint ≤ 0x42F then
    98 + (codepoint - 0x410)
  else if glyphCount = GLYPHS_EXTENDED ∧ codepoint = 0x401 then 130
  else if glyphCount = GLYPHS_EXTENDED ∧ 0x430 ≤ codepoint ∧ codepoint ≤ 0x44F then
    131 + (codepoint - 0x430)
  else if glyphCount = GLYPHS_EXTENDED ∧ codepoint = 0x451 then 163
  else if glyphCount = GLYPHS_EXTENDED ∧ codepoint = 0x2014 then 164
  else if glyphCount = GLYPHS_EXTENDED ∧ codepoint = 0xAB then 165
  else if glyphCount = GLYPHS_EXTENDED ∧ codepoint = 0xBB then 166
  else if codepoint ≠ invalidCp then
    (if SubstituteUnsupported codepoint ≠ 0 then subResult else 0)
  else 0

/-- Font::GlyphForCodepoint.  Every nonzero output of
SubstituteUnsupported is an ASCII codepoint, so the C++ recursion has
depth at most one; it is unrolled here (see `glyphForCodepoint_fix`). -/
def GlyphForCodepoint (glyphCount codepoint : Nat) (isAfterSpace : Bool) : Nat :=
  GlyphForCodepointCore glyphCount codepoint isAfterSpace
    (GlyphForCodepointCore glyphCount (SubstituteUnsupported codepoint) isAfterSpace 0)

/-- The per-font state read by the measurement and truncation code: the
glyph count, the advance table (indexed flat, previous * glyphCount +
next, as in the C++ vector), the blank-advance `space`, the
letter-spacing preference `kern`, and the font-scale preference in
percent.  The final double multiplication
`width * FontScale() / 100.` cast to int is modelled as exact integer
arithmetic `(width * fontScale).tdiv 100`. -/
structure FontModel where
  glyphCount : Nat
  advance : Nat → Int
  space : Int
  kern : Int
  fontScale : Nat

/-- Loop state of Font::WidthRawString.  `accesses` is a ghost field
recording the flat indices read from the advance table, used to state the
bounds-safety claim; it does not influence the computation. -/
structure WState where
  width : Int
  previous : Nat
  isAfterSpace : Bool
  accesses : List Nat

/-- Initial state of the Font::WidthRawString loop. -/
def widthInit : WState := { width := 0, previous := 0, isAfterSpace := true, accesses := [] }

/-- One iteration of the Font::WidthRawString loop on codepoint `cp`:
the underscore is skipped; otherwise the glyph is resolved, the
after-space flag is updated for every codepoint other than the two ASCII
quotes, and either `space` (blank glyph) or an advance-table entry plus
`kern` is added. -/
def widthStep (f : FontModel) (s : WState) (cp : Nat) : WState :=
  if cp = 95 then s
  else
    let glyph := GlyphForCodepoint f.glyphCount cp s.isAfterSpace
    let isAfterSpace := if cp ≠ 34 ∧ cp ≠ 39 then decide (glyph = 0) else s.isAfterSpace
    if glyph = 0 then
      { s with width := s.width + f.space, isAfterSpace := isAfterSpace }
    else
      { width := s.width + f.advance (s.previous * f.glyphCount + glyph) + f.kern,
        previous := glyph,
        isAfterSpace := isAfterSpace,
        accesses := s.accesses ++ [s.previous * f.glyphCount + glyph] }

/-- Font::WidthRawString over an already-decoded codepoint list: run the
loop, add the trailing advance against `after` (clamped into the ASCII
range; the C++ `max(0, ...)` is the identity on naturals), and apply the
font-scale percentage. -/
def WidthRawString (f : FontModel) (cps : List Nat) (after : Nat) : Int :=
  let s := cps.foldl (widthStep f) widthInit
  let afterGlyph : Nat := if 32 ≤ after ∧ after ≤ 126 then after - 32 else 0
  let w := s.width + f.advance (s.previous * f.glyphCount + min (f.glyphCount - 1) afterGlyph)
  (w * (f.fontScale : Int)).tdiv 100

/-- The sequence of flat advance-table indices read by one call of
Font::WidthRawString, including the trailing lookup. -/
def WidthRawAccesses (f : FontModel) (cps : List Nat) (after : Nat) : List Nat :=
  let s := cps.foldl (widthStep f) widthInit
  let afterGlyph : Nat := if 32 ≤ after ∧ after ≤ 126 then after - 32 else 0
  s.accesses ++ [s.previous * f.glyphCount + min (f.glyphCount - 1) afterGlyph]

/-- Loop state of Font::DrawAliased relevant to glyph resolution (the
screen positions and GL calls are external rendering concerns). -/
structure DState where
  previous : Nat
  isAfterSpace : Bool
  underlineChar : Bool

/-- Initial state of the Font::DrawAliased loop. -/
def drawInit : DState := { previous := 0, isAfterSpace := true, underlineChar := false }

/-- One iteration of the Font::DrawAliased loop on codepoint `cp`, with
`su` the process-wide showUnderlines flag: the underscore only records
the pending-underline mark; otherwise the glyph is resolved and the
after-space flag updated exactly as in the width loop, and drawing a
non-blank glyph clears the pending-underline mark. -/
def drawStep (f : FontModel) (su : Bool) (s : DState) (cp : Nat) : DState :=
  if cp = 95 then { s with underlineChar := su }
  else
    let glyph := GlyphForCodepoint f.glyphCount cp s.isAfterSpace
    let isAfterSpace := if cp ≠ 34 ∧ cp ≠ 39 then decide (glyph = 0) else s.isAfterSpace
    if glyph = 0 then { s with isAfterSpace := isAfterSpace }
    else { previous := glyph, isAfterSpace := isAfterSpace, underlineChar := false }

/-- The three-dot marker appended by the truncation builders. -/
def Ellipsis : List Nat := [46, 46, 46]

/-- SubstringFirstCodePoints (Font.cpp anonymous namespace): the first
`n` codepoints; at the codepoint level this is `take` (a non-positive
`n` yields the empty list, matching the C++ loop that runs zero times). -/
def SubstringFirstCodePoints (str : List Nat) (n : Int) : List Nat :=
  str.take n.toNat

/-- SubstringLastCodePoints (Font.cpp anonymous namespace): the whole
string when it has at most `n` codepoints, otherwise everything after
the first `total - n`. -/
def SubstringLastCodePoints (str : List Nat) (n : Int) : List Nat :=
  if (str.length : Int) ≤ n then str else str.drop ((str.length : Int) - n).toNat

/-- The trial-string builder of Font::TruncateBack. -/
def TruncateBackBuilder (str : List Nat) (charCount : Int) : List Nat :=
  SubstringFirstCodePoints str charCount ++ Ellipsis

/-- The trial-string builder of Font::TruncateFront. -/
def TruncateFrontBuilder (str : List Nat) (charCount : Int) : List Nat :=
  Ellipsis ++ SubstringLastCodePoints str charCount

/-- The trial-string builder of Font::TruncateMiddle ((charCount + 1) / 2
leading and charCount / 2 trailing codepoints, C++ int division). -/
def TruncateMiddleBuilder (str : List Nat) (charCount : Int) : List Nat :=
  SubstringFirstCodePoints str ((charCount + 1).tdiv 2) ++ Ellipsis
    ++ SubstringLastCodePoints str (charCount.tdiv 2)

/-- The while-loop of Font::TruncateEndsOrMiddle, with `T` the measured
width of the trial string at a given retained-codepoint count and `w`
the width budget.  The state is (low, high, workingChars, workingWidth);
`fuel` is a structural bound on the number of iterations (each iteration
either raises `low` or lowers `high`, so `initial high - low + 2`
iterations always suffice, as the termination lemmas below prove). -/
def truncLoop (T : Int → Int) (w : Int) :
    Nat → Int → Int → Int → Int → Int × Int
  | 0, _, _, workingChars, workingWidth => (workingChars, workingWidth)
  | fuel + 1, low, high, workingChars, workingWidth =>
    if low ≤ high then
      if T ((low + high).tdiv 2) ≤ w then
        truncLoop T w fuel
          ((low + high).tdiv 2 + if (low + high).tdiv 2 = low then 1 else 0)
          high
          (if workingChars < (low + high).tdiv 2 then (low + high).tdiv 2 else workingChars)
          (if workingChars < (low + high).tdiv 2 then T ((low + high).tdiv 2)
           else workingWidth)
      else
        truncLoop T w fuel low ((low + high).tdiv 2 - 1) workingChars workingWidth
    else (workingChars, workingWidth)

/-- Font::TruncateEndsOrMiddle: return the string unchanged with its raw
width when it fits, otherwise binary-search the retained-codepoint count
and return the trial string at workingChars together with workingWidth. -/
def TruncateEndsOrMiddle (f : FontModel)
    (getResultString : List Nat → Int → List Nat)
    (str : List Nat) (width : Int) : List Nat × Int :=
  if WidthRawString f str 0 ≤ width then (str, WidthRawString f str 0)
  else
    let r := truncLoop (fun k => WidthRawString f (getResultString str k) 0) width
      (str.length + 2) 0 (str.length : Int) 0 0
    (getResultString str r.1, r.2)

/-- Font::TruncateBack. -/
def TruncateBack (f : FontModel) (str : List Nat) (width : Int) : List Nat × Int :=
  TruncateEndsOrMiddle f TruncateBackBuilder str width

/-- Font::TruncateFront. -/
def TruncateFront (f : FontModel) (str : List Nat) (width : Int) : List Nat × Int :=
  TruncateEndsOrMiddle f TruncateFrontBuilder str width

/-- Font::TruncateMiddle. -/
def TruncateMiddle (f : FontModel) (str : List Nat) (width : Int) : List Nat × Int :=
  TruncateEndsOrMiddle f TruncateMiddleBuilder str width

/-- Horizontal alignment of a layout (text/Alignment.h). -/
inductive Alignment
  | LEFT
  | CENTER
  | RIGHT
deriving DecidableEq

/-- Truncation policy of a layout (text/Truncate.h). -/
inductive TruncType
  | NONE
  | FRONT
  | MIDDLE
  | BACK
deriving DecidableEq

/-- Layout descriptor of a DisplayText (width budget, alignment,
truncation policy). -/
structure Layout where
  width : Int
  align : Alignment
  truncate : TruncType

/-- Font::TruncateText: the returned pair is (result string, width
out-parameter); the out-parameter is left at -1 on the early return for
a negative budget or an untruncated left-aligned layout. -/
def TruncateText (f : FontModel) (str : List Nat) (l : Layout) : List Nat × Int :=
  if l.width < 0 ∨ (l.align = Alignment.LEFT ∧ l.truncate = TruncType.NONE) then
    (str, -1)
  else
    match l.truncate with
    | TruncType.NONE => (str, WidthRawString f str 0)
    | TruncType.FRONT => TruncateFront f str l.width
    | TruncType.MIDDLE => TruncateMiddle f str l.width
    | TruncType.BACK => TruncateBack f str l.width

/-- A decoded image: pixel (x, y) is `pixels (y * width + x)`, a 32-bit
RGBA value with alpha in the top byte, as produced by ImageBuffer. -/
structure ImageBuffer where
  width : Nat
  height : Nat
  pixels : Nat → Nat

/-- Whether an atlas pixel counts as inked in Font::CalculateAdvances:
alpha byte at least 0xC0 (the loop conditions test `(p & mask) < half`
for emptiness). -/
def inkedPixel (img : ImageBuffer) (idx : Nat) : Bool :=
  decide (0xC0000000 ≤ img.pixels idx &&& 0xFF000000)

/-- The backward scan of Font::CalculateAdvances over one cell row of
width `w`: one plus the offset of the last inked pixel, or 1 when the
row is empty (the C++ pointer loop leaves `pit == pend`, giving
distance `(pit - pend) + 1 = 1`). -/
def lastInkedDist (ink : Nat → Bool) : Nat → Nat
  | 0 => 1
  | j + 1 => if ink j then j + 1 else lastInkedDist ink j

/-- Helper for the forward scan: scan offsets `j, j+1, ...` for `rem`
steps, returning one plus the first inked offset, or the offset reached
when none is inked. -/
def firstInkedAux (ink : Nat → Bool) : Nat → Nat → Nat
  | 0, j => j
  | rem + 1, j => if ink j then j + 1 else firstInkedAux ink rem (j + 1)

/-- The forward scan of Font::CalculateAdvances over one cell row of
width `w`: one plus the offset of the first inked pixel, or `w` when the
row is empty (the C++ post-increment loop leaves `nit == nend`). -/
def firstInkedPos (ink : Nat → Bool) (w : Nat) : Nat :=
  firstInkedAux ink w 0

/-- Distance of the backward scan for glyph cell `previous` in pixel row
`y`. -/
def rowLastDist (img : ImageBuffer) (cellW previous y : Nat) : Nat :=
  lastInkedDist (fun j => inkedPixel img (y * img.width + previous * cellW + j)) cellW

/-- Position of the forward scan for glyph cell `next` in pixel row `y`. -/
def rowFirstPos (img : ImageBuffer) (cellW next y : Nat) : Nat :=
  firstInkedPos (fun j => inkedPixel img (y * img.width + next * cellW + j)) cellW

/-- The per-row `distance` value of Font::CalculateAdvances: the tight
width of the previous glyph, adjusted (when `next` is a real glyph) by
`1 - (nit - (nend - width))` so that the two glyphs touch on this row. -/
def rowDistance (img : ImageBuffer) (cellW previous next y : Nat) : Int :=
  if next ≠ 0 then
    (rowLastDist img cellW previous y : Int) + 1 - (rowFirstPos img cellW next y : Int)
  else (rowLastDist img cellW previous y : Int)

/-- The `glyphWidth` accumulator of Font::CalculateAdvances: the maximum
backward-scan distance over all pixel rows, starting from 0. -/
def glyphWidthOf (img : ImageBuffer) (cellW previous : Nat) : Int :=
  (List.range img.height).foldl
    (fun acc y => max acc (rowLastDist img cellW previous y : Int)) 0

/-- The `maxD` accumulator of Font::CalculateAdvances: the maximum row
distance over all pixel rows, starting from 0. -/
def maxDOf (img : ImageBuffer) (cellW previous next : Nat) : Int :=
  (List.range img.height).foldl
    (fun acc y => max acc (rowDistance img cellW previous next y)) 0

/-- One entry of the advance table: zero on row 0 (the loop starts at
`previous = 1` over a zero-filled vector), otherwise
`max(maxD, glyphWidth - 4) / 2` with C++ int division. -/
def advanceEntry (img : ImageBuffer) (glyphCountParam previous next : Nat) : Int :=
  if previous = 0 then 0
  else
    (max (maxDOf img (img.width / glyphCountParam) previous next)
      (glyphWidthOf img (img.width / glyphCountParam) previous - 4)).tdiv 2

/-- Font::CalculateAdvances: the flat advance table of size
glyphCount * glyphCount, entry `previous * glyphCount + next` as in the
C++ vector. -/
def CalculateAdvances (img : ImageBuffer) (glyphCountParam : Nat) : List Int :=
  (List.range (glyphCountParam * glyphCountParam)).map
    (fun i => advanceEntry img glyphCountParam (i / glyphCountParam) (i % glyphCountParam))

/-- The `space` member set at the end of Font::CalculateAdvances:
`(width / 2 + 3) / 6 + 1` where `width` is the cell width (stored at 2x
final scale). -/
def SpaceOf (img : ImageBuffer) (glyphCountParam : Nat) : Int :=
  ((img.width / glyphCountParam / 2 + 3) / 6 + 1 : Nat)

/-- Whether a byte is a UTF-8 continuation byte (10xxxxxx). -/
def isContinuation (b : Nat) : Bool :=
  decide (0x80 ≤ b ∧ b < 0xC0)

/-- Modelled from the spec: Utf8::DecodeCodePoint (source/text/Utf8.cpp
is not part of the excerpt).  Per spec section 4.1 the decoder returns
the scalar at the byte offset and the offset of the next scalar
boundary, handles 1-4 byte sequences, and on malformed input signals an
unambiguous failure sentinel (the invalid marker 0xFFFFFFFF together
with `npos`, modelled as `none`) which the caller treats as
end-of-string.  It never reads past the end of the byte list: every
access goes through `List.get?`. -/
def DecodeCodePoint (s : List Nat) (pos : Nat) : Nat × Option Nat :=
  match s.get? pos with
  | none => (invalidCp, none)
  | some b0 =>
    if b0 < 0x80 then (b0, some (pos + 1))
    else if 0xC0 ≤ b0 ∧ b0 < 0xE0 then
      match s.get? (pos + 1) with
      | some b1 =>
        if isContinuation b1 then
          ((b0 - 0xC0) * 0x40 + (b1 - 0x80), some (pos + 2))
        else (invalidCp, none)
      | none => (invalidCp, none)
    else if 0xE0 ≤ b0 ∧ b0 < 0xF0 then
      match s.get? (pos + 1), s.get? (pos + 2) with
      | some b1, some b2 =>
        if isContinuation b1 ∧ isContinuation b2 then
          ((b0 - 0xE0) * 0x1000 + (b1 - 0x80) * 0x40 + (b2 - 0x80), some (pos + 3))
        else (invalidCp, none)
      | _, _ => (invalidCp, none)
    else if 0xF0 ≤ b0 ∧ b0 < 0xF8 then
      match s.get? (pos + 1), s.get? (pos + 2), s.get? (pos + 3) with
      | some b1, some b2, some b3 =>
        if isContinuation b1 ∧ isContinuation b2 ∧ isContinuation b3 then
          ((b0 - 0xF0) * 0x40000 + (b1 - 0x80) * 0x1000 + (b2 - 0x80) * 0x40 + (b3 - 0x80),
            some (pos + 4))
        else (invalidCp, none)
      | _, _, _ => (invalidCp, none)
    else (invalidCp, none)

/-- The decode-and-measure loop of Font::WidthRawString at the byte
level: while the position is inside the string, decode one codepoint;
stop on the decoder's failure sentinel, otherwise feed the codepoint to
the width step and continue at the new position.  `fuel` is a structural
iteration bound; the decoder strictly advances the position, so
`s.length - pos` iterations always suffice (proved below). -/
def widthBytesGo (f : FontModel) (s : List Nat) :
    Nat → Nat → WState → WState
  | 0, _, st => st
  | fuel + 1, pos, st =>
    if pos < s.length then
      match (DecodeCodePoint s pos).2 with
      | none => st
      | some p => widthBytesGo f s fuel p (widthStep f st (DecodeCodePoint s pos).1)
    else st

/-- A simple font state used for concrete evaluations: the basic roster
with every advance entry 1, blank advance 1, no letter spacing, 100
percent scale. -/
def constFont : FontModel :=
  { glyphCount := GLYPHS, advance := fun _ => 1, space := 1, kern := 0, fontScale := 100 }

/-- A synthetic 1372x3 glyph-sheet image for the basic 98-glyph roster
(cell width 14): cell 14 (the period) is inked in row 0 at offsets 0-3;
cell 65 (lowercase a) at (0,0), (1,0), (1,1) and (2,0); cell 66
(lowercase b) at (0,0) and (1,0); cell 96 (the open single quote) across
all of row 2; every other cell is empty.  Alpha 0xFF in the top byte
marks ink. -/
def cexPixels (i : Nat) : Nat :=
  let y := i / 1372
  let x := i % 1372
  let cell := x / 14
  let o := x % 14
  if (cell = 14 ∧ y = 0 ∧ o < 4)
      ∨ (cell = 65 ∧ ((y = 0 ∧ o = 0) ∨ (y = 1 ∧ o < 2) ∨ (y = 2 ∧ o = 0)))
      ∨ (cell = 66 ∧ (y = 0 ∨ y = 1) ∧ o = 0)
      ∨ (cell = 96 ∧ y = 2) then
    0xFF000000
  else 0

/-- The synthetic atlas image built from `cexPixels`. -/
def cexImage : ImageBuffer :=
  { width := 1372, height := 3, pixels := cexPixels }

/-- The font whose advance table, blank advance and glyph count are
computed from `cexImage` exactly as Font::Load does for a 98-glyph
sheet (letter spacing 0, scale 100 percent). -/
def cexFont : FontModel :=
  { glyphCount := GLYPHS,
    advance := fun i => advanceEntry cexImage GLYPHS (i / GLYPHS) (i % GLYPHS),
    space := SpaceOf cexImage GLYPHS,
    kern := 0,
    fontScale := 100 }

/-- Every value of SubstituteUnsupported is 0 or one of the four ASCII
substitutes (space, hyphen, apostrophe, double quote). -/
lemma substituteUnsupported_cases (cp : Nat) :
    SubstituteUnsupported cp = 0 ∨ SubstituteUnsupported cp = 0x20 ∨
    SubstituteUnsupported cp = 0x2D ∨ SubstituteUnsupported cp = 0x27 ∨
    SubstituteUnsupported cp = 0x22 := by
  unfold SubstituteUnsupported
  split_ifs <;> simp

/-- On any codepoint that SubstituteUnsupported can produce, the resolver
body never reaches the substitution fallback, so the `subResult`
argument is irrelevant there. -/
lemma core_subResult_irrel (gc : Nat) (ias : Bool) (x y v : Nat)
    (hv : v = 0 ∨ v = 0x20 ∨ v = 0x2D ∨ v = 0x27 ∨ v = 0x22) :
    GlyphForCodepointCore gc v ias x = GlyphForCodepointCore gc v ias y := by
  rcases hv with rfl | rfl | rfl | rfl | rfl <;> cases ias <;>
    simp [GlyphForCodepointCore, GLYPHS_EXTENDED, invalidCp, SubstituteUnsupported]

/-- The unrolled `GlyphForCodepoint` satisfies the recursive equation of
the C++ Font::GlyphForCodepoint (resolve, and on the substitution
fallback recurse on the substitute); since the recursion terminates
(every substitute is strictly smaller), this identifies the model with
the C++ function. -/
theorem glyphForCodepoint_fix (gc cp : Nat) (ias : Bool) :
    GlyphForCodepoint gc cp ias =
      GlyphForCodepointCore gc cp ias
        (GlyphForCodepoint gc (SubstituteUnsupported cp) ias) := by
  unfold GlyphForCodepoint
  exact congrArg _ (core_subResult_irrel gc ias 0 _ _ (substituteUnsupported_cases cp))

set_option maxHeartbeats 1000000 in
/-- The resolver body stays below the glyph count (for rosters of at
least 98 glyphs) whenever the substitution result does. -/
lemma core_lt (gc : Nat) (h98 : 98 ≤ gc) (cp : Nat) (ias : Bool) (x : Nat)
    (hx : x < gc) : GlyphForCodepointCore gc cp ias x < gc := by
  unfold GlyphForCodepointCore
  simp only [GLYPHS_EXTENDED]
  repeat' split
  all_goals omega

/-- The resolved glyph index is always below the glyph count for the two
real roster sizes. -/
lemma glyphForCodepoint_lt (gc : Nat) (h98 : 98 ≤ gc) (cp : Nat) (ias : Bool) :
    GlyphForCodepoint gc cp ias < gc := by
  unfold GlyphForCodepoint
  exact core_lt gc h98 cp ias _ (core_lt gc h98 _ ias 0 (by omega))

/-- C7: with the after-space context set, the ASCII apostrophe 0x27 and
the Unicode left single quote 0x2018 resolve to the same glyph index,
the open-single-quote slot 96; likewise the ASCII double quote 0x22 and
the Unicode left double quote 0x201C both resolve to the
open-double-quote slot 97 (for any glyph count). -/
theorem curly_quote_same_glyph : ∀ glyphCount : Nat,
    GlyphForCodepoint glyphCount 0x27 true = 96 ∧
    GlyphForCodepoint glyphCount 0x2018 true = 96 ∧
    GlyphForCodepoint glyphCount 0x22 true = 97 ∧
    GlyphForCodepoint glyphCount 0x201C true = 97 := by
  intro glyphCount
  exact ⟨rfl, rfl, rfl, rfl⟩

/-- C3 counterexample: on the Latin-only 98-glyph roster the em dash
U+2014 resolves to the blank index 0 for either context flag, not to the
hyphen slot 13: U+2014 is absent from the substitution table (which maps
only U+2010 through U+2013 to the hyphen). -/
theorem emdash_basic_blank_cex :
    GlyphForCodepoint GLYPHS 0x2014 true = 0 ∧
    GlyphForCodepoint GLYPHS 0x2014 false = 0 ∧
    ¬ GlyphForCodepoint GLYPHS 0x2014 true = 13 := by
  decide

/-- C3 amended: on the Latin-only roster the em dash U+2014 resolves to
the blank index 0 (it has no substitution-table entry); the dashes
U+2010 through U+2013 do resolve via substitution to the hyphen slot 13;
on the extended roster the em dash has its own glyph slot 164. -/
theorem emdash_dash_resolution : ∀ b : Bool,
    GlyphForCodepoint GLYPHS 0x2014 b = 0 ∧
    GlyphForCodepoint GLYPHS 0x2013 b = 13 ∧
    GlyphForCodepoint GLYPHS 0x2010 b = 13 ∧
    GlyphForCodepoint GLYPHS_EXTENDED 0x2014 b = 164 := by
  decide

/-- C2 counterexample: the non-breaking space U+00A0 is in the domain of
the substitution table (its substitute, the space 0x20, is nonzero), yet
GlyphForCodepoint resolves it to the blank index 0 on both rosters and
for either context flag. -/
theorem substitution_space_blank_cex :
    SubstituteUnsupported 0xA0 ≠ 0 ∧
    GlyphForCodepoint GLYPHS 0xA0 true = 0 ∧
    GlyphForCodepoint GLYPHS 0xA0 false = 0 ∧
    GlyphForCodepoint GLYPHS_EXTENDED 0xA0 true = 0 ∧
    GlyphForCodepoint GLYPHS_EXTENDED 0xA0 false = 0 := by
  decide

/-- C2 amended: every codepoint in the substitution-table domain whose
substitute is not the space character 0x20 resolves, on either roster
and for either context flag, to a glyph index that is never the blank
index 0 (the entries whose substitute is the space - non-breaking space,
thin space, ellipsis and the primes - resolve to the blank index by
design). -/
theorem substitution_nonspace_nonblank (gc cp : Nat) (ias : Bool)
    (hgc : gc = GLYPHS ∨ gc = GLYPHS_EXTENDED)
    (h0 : SubstituteUnsupported cp ≠ 0)
    (hsp : SubstituteUnsupported cp ≠ 0x20) :
    GlyphForCodepoint gc cp ias ≠ 0 := by
  have hcp : cp = 0x2010 ∨ cp = 0x2011 ∨ cp = 0x2012 ∨ cp = 0x2013 ∨
      cp = 0x2019 ∨ cp = 0x201A ∨ cp = 0x201B ∨
      cp = 0x201D ∨ cp = 0x201E ∨ cp = 0x201F := by
    unfold SubstituteUnsupported at h0 hsp
    split_ifs at h0 hsp with h1 h2 h3 h4 h5 h6
    · exact absurd rfl hsp
    · exact absurd rfl hsp
    · tauto
    · tauto
    · tauto
    · exact absurd rfl hsp
    · exact absurd rfl h0
  rcases hgc with rfl | rfl <;>
    rcases hcp with rfl | rfl | rfl | rfl | rfl | rfl | rfl | rfl | rfl | rfl <;>
    cases ias <;> decide

/-- C2 witness: the amended theorem applied at the en dash U+2013 on the
basic roster. -/
theorem substitution_nonspace_nonblank_witness :
    GlyphForCodepoint GLYPHS 0x2013 true ≠ 0 :=
  substitution_nonspace_nonblank GLYPHS 0x2013 true (Or.inl rfl)
    (by decide) (by decide)

/-- C4 counterexample: the curly Unicode left single quote U+2018 does
change the after-space flag: starting from the initial state (flag
true), processing it in the width loop or in the draw loop leaves the
flag false (it resolves to glyph 96, and only the ASCII quotes 0x22 and
0x27 are exempt from the flag update). -/
theorem curly_quote_flips_flag_cex :
    widthInit.isAfterSpace = true ∧
    (widthStep constFont widthInit 0x2018).isAfterSpace = false ∧
    (drawStep constFont false drawInit 0x2018).isAfterSpace = false := by
  decide

/-- C4 amended: in both the width-measurement and the draw loop, the
after-space flag starts true; the underscore layout marker is skipped
and leaves the whole state unchanged except for the pending-underline
mark; the two ASCII quote characters 0x27 and 0x22 leave the flag
unchanged; and after any other codepoint the flag equals whether that
codepoint resolved to glyph 0 (so the curly Unicode quote variants,
which the claim exempted, do update the flag like any other character -
see the counterexample). -/
theorem after_space_flag_rule :
    widthInit.isAfterSpace = true ∧
    drawInit.isAfterSpace = true ∧
    (∀ (f : FontModel) (s : WState),
      (widthStep f s 39).isAfterSpace = s.isAfterSpace ∧
      (widthStep f s 34).isAfterSpace = s.isAfterSpace ∧
      widthStep f s 95 = s) ∧
    (∀ (f : FontModel) (su : Bool) (d : DState),
      (drawStep f su d 39).isAfterSpace = d.isAfterSpace ∧
      (drawStep f su d 34).isAfterSpace = d.isAfterSpace ∧
      (drawStep f su d 95).isAfterSpace = d.isAfterSpace) ∧
    (∀ (f : FontModel) (s : WState) (cp : Nat), cp ≠ 39 → cp ≠ 34 → cp ≠ 95 →
      (widthStep f s cp).isAfterSpace
        = decide (GlyphForCodepoint f.glyphCount cp s.isAfterSpace = 0)) ∧
    (∀ (f : FontModel) (su : Bool) (d : DState) (cp : Nat),
      cp ≠ 39 → cp ≠ 34 → cp ≠ 95 →
      (drawStep f su d cp).isAfterSpace
        = decide (GlyphForCodepoint f.glyphCount cp d.isAfterSpace = 0)) := by
  refine ⟨rfl, rfl, ?_, ?_, ?_, ?_⟩
  · intro f s
    refine ⟨?_, ?_, ?_⟩ <;>
      · simp only [widthStep]; norm_num; try (split <;> rfl)
  · intro f su d
    refine ⟨?_, ?_, ?_⟩ <;>
      · simp only [drawStep]; norm_num; try (split <;> rfl)
  · intro f s cp h39 h34 h95
    simp only [widthStep, if_neg h95, ne_eq, h34, not_false_iff, h39, and_self, if_pos]
    try (split <;> rfl)
  · intro f su d cp h39 h34 h95
    simp only [drawStep, if_neg h95, ne_eq, h34, not_false_iff, h39, and_self, if_pos]
    try (split <;> rfl)

/-- C4 witness: the amended theorem's flag-update clauses applied to the
letter A in the width loop and the space 0x20 in the draw loop, and the
quote clause at a concrete state. -/
theorem after_space_flag_rule_witness :
    (widthStep constFont widthInit 65).isAfterSpace
      = decide (GlyphForCodepoint constFont.glyphCount 65 widthInit.isAfterSpace = 0) ∧
    (drawStep constFont false drawInit 32).isAfterSpace
      = decide (GlyphForCodepoint constFont.glyphCount 32 drawInit.isAfterSpace = 0) :=
  ⟨after_space_flag_rule.2.2.2.2.1 constFont widthInit 65
      (by decide) (by decide) (by decide),
   after_space_flag_rule.2.2.2.2.2 constFont false drawInit 32
      (by decide) (by decide) (by decide)⟩

/-- C6: at budget 0 (smaller than the width of every trial string, the
ellipsis-only trial included) truncating the two-letter string AB with
the BACK policy terminates and returns the ellipsis-only trial string -
but the reported width is 0, the initial workingWidth, not the trial
string's measured width 4, contradicting the code's own contract that
the out-parameter is set to the width of the returned string. -/
theorem truncate_degenerate_width_zero :
    TruncateBack constFont [65, 66] 0 = (Ellipsis, 0) ∧
    WidthRawString constFont Ellipsis 0 = 4 ∧
    0 < WidthRawString constFont [65, 66] 0 := by
  decide

/-- Folding `max` with a function over a list never goes below the
starting accumulator. -/
lemma le_foldl_max (g : Nat → Int) (l : List Nat) :
    ∀ a : Int, a ≤ l.foldl (fun acc y => max acc (g y)) a := by
  induction l with
  | nil => intro a; exact le_refl a
  | cons hd tl ih =>
    intro a
    exact le_trans (le_max_left a (g hd)) (ih (max a (g hd)))

/-- A tiny fully-inked one-row image used for concrete advance-table
evaluations. -/
def smallImage : ImageBuffer :=
  { width := 4, height := 1, pixels := fun _ => 0xFF000000 }

/-- C8: for every atlas pixel buffer and glyph count, the advance table
produced by CalculateAdvances has exactly glyphCount squared entries and
every entry is non-negative (each entry is `max(maxD, glyphWidth - 4) / 2`
where the maxD accumulator starts at 0 and int division of a
non-negative value is non-negative; row 0 is left at its zero fill). -/
theorem calculateAdvances_size_nonneg (img : ImageBuffer) (glyphCountParam : Nat) :
    (CalculateAdvances img glyphCountParam).length = glyphCountParam * glyphCountParam ∧
    ∀ e ∈ CalculateAdvances img glyphCountParam, 0 ≤ e := by
  constructor
  · simp [CalculateAdvances]
  · intro e he
    simp only [CalculateAdvances, List.mem_map] at he
    obtain ⟨i, _, rfl⟩ := he
    unfold advanceEntry
    split
    · exact le_refl 0
    · refine Int.tdiv_nonneg ?_ (by norm_num)
      refine le_trans ?_ (le_max_left _ _)
      unfold maxDOf
      exact le_foldl_max _ _ 0

/-- C8 witness: the theorem applied to the small concrete image with
glyph count 2. -/
theorem calculateAdvances_size_nonneg_witness :
    (CalculateAdvances smallImage 2).length = 2 * 2 ∧
    0 ≤ (CalculateAdvances smallImage 2).getD 3 0 :=
  ⟨(calculateAdvances_size_nonneg smallImage 2).1,
   (calculateAdvances_size_nonneg smallImage 2).2 _ (by decide)⟩

/-- Each flat advance index `p * gc + g` with both factors below `gc` is
below `gc * gc`. -/
lemma access_lt (gc p g : Nat) (hp : p < gc) (hg : g < gc) :
    p * gc + g < gc * gc := by
  calc p * gc + g < p * gc + gc := by omega
    _ = (p + 1) * gc := by ring
    _ ≤ gc * gc := Nat.mul_le_mul_right gc hp

/-- Invariant of the width loop: the previous glyph index and every
recorded advance-table access stay in bounds. -/
lemma widthLoop_inv (f : FontModel) (h98 : 98 ≤ f.glyphCount) :
    ∀ (cps : List Nat) (s : WState), s.previous < f.glyphCount →
      (∀ i ∈ s.accesses, i < f.glyphCount * f.glyphCount) →
      (cps.foldl (widthStep f) s).previous < f.glyphCount ∧
      ∀ i ∈ (cps.foldl (widthStep f) s).accesses, i < f.glyphCount * f.glyphCount := by
  intro cps
  induction cps with
  | nil => intro s h1 h2; exact ⟨h1, h2⟩
  | cons hd tl ih =>
    intro s h1 h2
    simp only [List.foldl_cons]
    refine ih _ ?_ ?_
    · simp only [widthStep]
      split
      · exact h1
      · split
        · exact h1
        · exact glyphForCodepoint_lt f.glyphCount h98 hd s.isAfterSpace
    · simp only [widthStep]
      split
      · exact h2
      · split
        · exact h2
        · intro i hi
          simp only [List.mem_append, List.mem_singleton] at hi
          rcases hi with hi | rfl
          · exact h2 i hi
          · exact access_lt f.glyphCount s.previous _ h1
              (glyphForCodepoint_lt f.glyphCount h98 hd s.isAfterSpace)

/-- C10: when the glyph count is one of the two real roster sizes, every
resolved glyph index lies in [0, glyphCount - 1], and consequently every
advance-table access made by WidthRawString (including the trailing
lookup, which is clamped into range) is below glyphCount squared, the
table's size. -/
theorem glyph_index_in_range (f : FontModel)
    (hgc : f.glyphCount = GLYPHS ∨ f.glyphCount = GLYPHS_EXTENDED) :
    (∀ cp ias, GlyphForCodepoint f.glyphCount cp ias < f.glyphCount) ∧
    (∀ cps after, ∀ i ∈ WidthRawAccesses f cps after,
      i < f.glyphCount * f.glyphCount) := by
  have h98 : 98 ≤ f.glyphCount := by
    rcases hgc with h | h <;> rw [h] <;> decide
  constructor
  · intro cp ias
    exact glyphForCodepoint_lt f.glyphCount h98 cp ias
  · intro cps after i hi
    have hinv := widthLoop_inv f h98 cps widthInit
      (by simp only [widthInit]; omega) (by intro i hi; simp [widthInit] at hi)
    unfold WidthRawAccesses at hi
    simp only [List.mem_append, List.mem_singleton] at hi
    rcases hi with hi | rfl
    · exact hinv.2 i hi
    · refine access_lt f.glyphCount _ _ hinv.1 ?_
      have : min (f.glyphCount - 1)
          (if 32 ≤ after ∧ after ≤ 126 then after - 32 else 0) ≤ f.glyphCount - 1 :=
        Nat.min_le_left _ _
      omega

/-- C10 witness: the theorem applied to the basic-roster sample font, a
large unmapped codepoint and a concrete access of the width loop. -/
theorem glyph_index_in_range_witness :
    GlyphForCodepoint constFont.glyphCount 5000 true < constFont.glyphCount ∧
    (WidthRawAccesses constFont [65, 66] 0).getD 0 0
      < constFont.glyphCount * constFont.glyphCount :=
  ⟨(glyph_index_in_range constFont (Or.inl rfl)).1 5000 true,
   (glyph_index_in_range constFont (Or.inl rfl)).2 [65, 66] 0 _ (by decide)⟩

/-- Exact behaviour of the Font::TruncateEndsOrMiddle search loop when
the fitting counts form the initial segment [0, k]: the loop ends with
workingChars = k, and workingWidth = T k when k is at least 1 but the
initial 0 when k = 0 (the working pair is only updated on a probe
strictly above the current workingChars, and the probe k = 0 is never
above the initial workingChars 0). -/
lemma truncLoop_eq (T : Int → Int) (w n k : Int) (hkn : k ≤ n)
    (hfit : ∀ j : Int, 0 ≤ j → j ≤ k → T j ≤ w)
    (hmax : ∀ j : Int, k < j → j ≤ n → w < T j) :
    ∀ (fuel : Nat) (low high wc ww : Int),
      0 ≤ low → low ≤ k + 1 → k ≤ high → high ≤ n →
      low ≤ wc + 1 → 0 ≤ wc → wc ≤ k →
      (wc = 0 ∧ ww = 0 ∨ 1 ≤ wc ∧ ww = T wc) →
      (high + 1 - low).toNat < fuel →
      truncLoop T w fuel low high wc ww = (k, if k = 0 then 0 else T k) := by
  intro fuel
  induction fuel with
  | zero => intro low high wc ww _ _ _ _ _ _ _ _ hf; omega
  | succ fuel ih =>
    intro low high wc ww h0 h1 h2 h3 h4 h5 h6 h7 hf
    simp only [truncLoop]
    by_cases hlh : low ≤ high
    · rw [if_pos hlh]
      have hdiv : (low + high).tdiv 2 = (low + high) / 2 :=
        Int.tdiv_eq_ediv (by omega) (by omega)
      have hl : low ≤ (low + high).tdiv 2 := by omega
      have hh : (low + high).tdiv 2 ≤ high := by omega
      by_cases hfitnc : T ((low + high).tdiv 2) ≤ w
      · rw [if_pos hfitnc]
        have hnck : (low + high).tdiv 2 ≤ k := by
          by_contra hgt
          push_neg at hgt
          exact absurd hfitnc (not_le.2 (hmax _ hgt (by omega)))
        by_cases hup : wc < (low + high).tdiv 2
        · by_cases heq : (low + high).tdiv 2 = low
          · simp only [if_pos hup, if_pos heq]
            exact ih _ high _ _ (by omega) (by omega) h2 h3 (by omega) (by omega)
              (by omega) (Or.inr ⟨by omega, rfl⟩) (by omega)
          · simp only [if_pos hup, if_neg heq]
            exact ih _ high _ _ (by omega) (by omega) h2 h3 (by omega) (by omega)
              (by omega) (Or.inr ⟨by omega, rfl⟩) (by omega)
        · by_cases heq : (low + high).tdiv 2 = low
          · simp only [if_neg hup, if_pos heq]
            exact ih _ high _ _ (by omega) (by omega) h2 h3 (by omega) h5 h6 h7 (by omega)
          · simp only [if_neg hup, if_neg heq]
            exact ih _ high _ _ (by omega) (by omega) h2 h3 (by omega) h5 h6 h7 (by omega)
      · rw [if_neg hfitnc]
        have hknc : k < (low + high).tdiv 2 := by
          by_contra hle
          push_neg at hle
          exact hfitnc (hfit _ (by omega) hle)
        exact ih low _ wc ww h0 h1 (by omega) (by omega) h4 h5 h6 h7 (by omega)
    · rw [if_neg hlh]
      have hwck : wc = k := by omega
      rcases h7 with ⟨hwc0, hww0⟩ | ⟨hwc1, hwwT⟩
      · have hk0 : k = 0 := by omega
        simp [hwc0, hww0, hk0]
      · have hk1 : ¬ k = 0 := by omega
        rw [hwwT, hwck, if_neg hk1]

/-- Behaviour of the search loop when no probed count fits: the working
pair is never updated and the loop returns its initial (0, 0). -/
lemma truncLoop_nofit (T : Int → Int) (w n : Int)
    (hnofit : ∀ j : Int, 0 ≤ j → j ≤ n → w < T j) :
    ∀ (fuel : Nat) (low high : Int), 0 ≤ low → high ≤ n →
      (high + 1 - low).toNat < fuel →
      truncLoop T w fuel low high 0 0 = (0, 0) := by
  intro fuel
  induction fuel with
  | zero => intro low high _ _ hf; omega
  | succ fuel ih =>
    intro low high h0 h3 hf
    simp only [truncLoop]
    by_cases hlh : low ≤ high
    · rw [if_pos hlh]
      have hdiv : (low + high).tdiv 2 = (low + high) / 2 :=
        Int.tdiv_eq_ediv (by omega) (by omega)
      have hl : low ≤ (low + high).tdiv 2 := by omega
      have hh : (low + high).tdiv 2 ≤ high := by omega
      rw [if_neg (not_le.2 (hnofit _ (by omega) (by omega)))]
      exact ih low _ h0 (by omega) (by omega)
    · rw [if_neg hlh]

/-- When the trial widths are non-decreasing in the retained count, the
ellipsis-only trial fits, and the string itself is over budget,
TruncateEndsOrMiddle returns the trial at the largest fitting count
(with the reported width as produced by the loop: the trial's width for
a positive count, the initial 0 when only the count 0 fits). -/
lemma truncateEOM_spec (f : FontModel) (gsr : List Nat → Int → List Nat)
    (s : List Nat) (w : Int)
    (hmono : ∀ j : Nat, j ≤ s.length → ∀ i : Nat, i ≤ j →
      WidthRawString f (gsr s i) 0 ≤ WidthRawString f (gsr s j) 0)
    (hfit0 : WidthRawString f (gsr s 0) 0 ≤ w)
    (hover : w < WidthRawString f s 0) :
    TruncateEndsOrMiddle f gsr s w =
      (gsr s (Nat.findGreatest (fun k => WidthRawString f (gsr s k) 0 ≤ w) s.length),
        if Nat.findGreatest (fun k => WidthRawString f (gsr s k) 0 ≤ w) s.length = 0
        then 0
        else WidthRawString f
          (gsr s (Nat.findGreatest
            (fun k => WidthRawString f (gsr s k) 0 ≤ w) s.length)) 0) := by
  have hfit0n : WidthRawString f (gsr s ((0 : Nat) : Int)) 0 ≤ w := by
    simpa using hfit0
  set P : Nat → Prop := fun k => WidthRawString f (gsr s k) 0 ≤ w with hP
  set k0 : Nat := Nat.findGreatest P s.length with hk0
  have hk0n : k0 ≤ s.length := Nat.findGreatest_le s.length
  have hPk0 : P k0 := Nat.findGreatest_spec (Nat.zero_le s.length) hfit0n
  have hloop := truncLoop_eq (fun j => WidthRawString f (gsr s j) 0) w
    (s.length : Int) (k0 : Int) (by exact_mod_cast hk0n)
    (by
      intro j hj0 hjk
      have hjn : (j.toNat : Int) = j := Int.toNat_of_nonneg hj0
      have hjk' : j.toNat ≤ k0 := by omega
      calc WidthRawString f (gsr s j) 0
          = WidthRawString f (gsr s (j.toNat : Int)) 0 := by rw [hjn]
        _ ≤ WidthRawString f (gsr s (k0 : Int)) 0 := hmono k0 hk0n j.toNat hjk'
        _ ≤ w := hPk0)
    (by
      intro j hjk hjn
      have hj0 : 0 ≤ j := by omega
      have hjn' : (j.toNat : Int) = j := Int.toNat_of_nonneg hj0
      have h1 : k0 < j.toNat := by omega
      have h2 : j.toNat ≤ s.length := by omega
      have := Nat.findGreatest_is_greatest (n := s.length) (P := P) (k := j.toNat)
        (by omega) h2
      rw [hP] at this
      simp only [not_le] at this
      calc w < WidthRawString f (gsr s (j.toNat : Int)) 0 := this
        _ = WidthRawString f (gsr s j) 0 := by rw [hjn'])
    (s.length + 2) 0 (s.length : Int) 0 0
    (by omega) (by positivity) (by exact_mod_cast hk0n) (le_refl _)
    (by omega) (le_refl 0) (by positivity) (Or.inl ⟨rfl, rfl⟩) (by omega)
  unfold TruncateEndsOrMiddle
  rw [if_neg (not_le.2 hover)]
  rw [hloop]
  have hcast : ((k0 : Int) = 0) = (k0 = 0) := by
    simp [Nat.cast_eq_zero]
  by_cases hz : k0 = 0
  · simp [hz]
  · have hz' : ¬ ((k0 : Int) = 0) := by exact_mod_cast hz
    simp [hz, hz']

/-- When no count up to the string length fits the budget (and the
string itself is over budget), TruncateEndsOrMiddle returns the trial at
count 0 with the reported width 0. -/
lemma truncateEOM_nofit (f : FontModel) (gsr : List Nat → Int → List Nat)
    (s : List Nat) (w : Int)
    (hnofit : ∀ k : Nat, k ≤ s.length → w < WidthRawString f (gsr s k) 0)
    (hover : w < WidthRawString f s 0) :
    TruncateEndsOrMiddle f gsr s w = (gsr s 0, 0) := by
  have hloop := truncLoop_nofit (fun j => WidthRawString f (gsr s j) 0) w
    (s.length : Int)
    (by
      intro j hj0 hjn
      have hjn' : (j.toNat : Int) = j := Int.toNat_of_nonneg hj0
      have h2 : j.toNat ≤ s.length := by omega
      calc w < WidthRawString f (gsr s (j.toNat : Int)) 0 := hnofit j.toNat h2
        _ = WidthRawString f (gsr s j) 0 := by rw [hjn'])
    (s.length + 2) 0 (s.length : Int) (le_refl 0) (le_refl _) (by omega)
  unfold TruncateEndsOrMiddle
  rw [if_neg (not_le.2 hover)]
  rw [hloop]

/-- The width accumulator of the measurement loop never decreases when
all the font quantities are non-negative. -/
lemma widthLoop_width_le (f : FontModel) (hadv : ∀ i, 0 ≤ f.advance i)
    (hsp : 0 ≤ f.space) (hk : 0 ≤ f.kern) :
    ∀ (cps : List Nat) (s : WState), s.width ≤ (cps.foldl (widthStep f) s).width := by
  intro cps
  induction cps with
  | nil => intro s; exact le_refl _
  | cons hd tl ih =>
    intro s
    simp only [List.foldl_cons]
    refine le_trans ?_ (ih (widthStep f s hd))
    simp only [widthStep]
    split
    · exact le_refl _
    · split
      · simp only []
        have := hsp
        omega
      · simp only []
        have := hadv (s.previous * f.glyphCount +
          GlyphForCodepoint f.glyphCount hd s.isAfterSpace)
        omega

/-- A measured width is non-negative when all the font quantities are. -/
lemma widthRawString_nonneg (f : FontModel) (hadv : ∀ i, 0 ≤ f.advance i)
    (hsp : 0 ≤ f.space) (hk : 0 ≤ f.kern) (cps : List Nat) (after : Nat) :
    0 ≤ WidthRawString f cps after := by
  unfold WidthRawString
  have h1 : (0 : Int) ≤ (cps.foldl (widthStep f) widthInit).width := by
    have := widthLoop_width_le f hadv hsp hk cps widthInit
    simpa [widthInit] using this
  refine Int.tdiv_nonneg ?_ (by norm_num)
  exact mul_nonneg (add_nonneg h1 (hadv _)) (Int.natCast_nonneg _)

/-- At retained count 0 the last-codepoints substring is empty. -/
lemma substringLast_zero (s : List Nat) : SubstringLastCodePoints s 0 = [] := by
  unfold SubstringLastCodePoints
  split
  · next h =>
    have hlen : s.length = 0 := by omega
    exact List.length_eq_zero.mp hlen
  · have : ((s.length : Int) - 0).toNat = s.length := by omega
    rw [this, List.drop_length]

/-- The BACK trial at count 0 is the bare ellipsis. -/
lemma backBuilder_zero (s : List Nat) : TruncateBackBuilder s 0 = Ellipsis := by
  simp [TruncateBackBuilder, SubstringFirstCodePoints]

/-- The FRONT trial at count 0 is the bare ellipsis. -/
lemma frontBuilder_zero (s : List Nat) : TruncateFrontBuilder s 0 = Ellipsis := by
  simp [TruncateFrontBuilder, substringLast_zero]

/-- The MIDDLE trial at count 0 is the bare ellipsis. -/
lemma middleBuilder_zero (s : List Nat) : TruncateMiddleBuilder s 0 = Ellipsis := by
  have h1 : ((0 : Int) + 1).tdiv 2 = 0 := by decide
  have h2 : (0 : Int).tdiv 2 = 0 := by decide
  unfold TruncateMiddleBuilder
  rw [h1, h2]
  simp [SubstringFirstCodePoints, substringLast_zero]

/-- The largest-fitting-count property for one builder, packaged. -/
lemma truncateEOM_largest (f : FontModel) (gsr : List Nat → Int → List Nat)
    (s : List Nat) (w : Int)
    (hmono : ∀ j : Nat, j ≤ s.length → ∀ i : Nat, i ≤ j →
      WidthRawString f (gsr s i) 0 ≤ WidthRawString f (gsr s j) 0)
    (hfit0 : WidthRawString f (gsr s 0) 0 ≤ w)
    (hover : w < WidthRawString f s 0) :
    ∃ k : Nat, k ≤ s.length ∧ WidthRawString f (gsr s k) 0 ≤ w ∧
      (∀ j : Nat, k < j → j ≤ s.length → w < WidthRawString f (gsr s j) 0) ∧
      (TruncateEndsOrMiddle f gsr s w).1 = gsr s k := by
  have hfit0n : WidthRawString f (gsr s ((0 : Nat) : Int)) 0 ≤ w := by simpa using hfit0
  refine ⟨Nat.findGreatest (fun k => WidthRawString f (gsr s k) 0 ≤ w) s.length,
    Nat.findGreatest_le s.length,
    Nat.findGreatest_spec (P := fun k => WidthRawString f (gsr s k) 0 ≤ w)
      (Nat.zero_le s.length) hfit0n, ?_, ?_⟩
  · intro j hkj hjn
    have := Nat.findGreatest_is_greatest
      (P := fun k => WidthRawString f (gsr s k) 0 ≤ w) (n := s.length) hkj hjn
    exact lt_of_not_le this
  · rw [truncateEOM_spec f gsr s w hmono hfit0 hover]

/-- C1: for every string, width budget and truncation policy in FRONT,
MIDDLE, BACK, if the raw measured width exceeds the budget then
TruncateEndsOrMiddle terminates and returns the trial string built per
policy (BACK: first k codepoints plus ellipsis; FRONT: ellipsis plus
last k codepoints; MIDDLE: first ceil(k/2), ellipsis, last floor(k/2))
at the largest count k in [0, codepoint count] whose trial width does
not exceed the budget, ties resolved toward the larger count - under the
spec's assumption that trial width is non-decreasing in k, and given
that the ellipsis-only trial (count 0) fits, so that a largest fitting
count exists. -/
theorem truncate_largest_fitting_k (f : FontModel) (s : List Nat) (w : Int)
    (hmonoB : ∀ j : Nat, j ≤ s.length → ∀ i : Nat, i ≤ j →
      WidthRawString f (TruncateBackBuilder s i) 0
        ≤ WidthRawString f (TruncateBackBuilder s j) 0)
    (hmonoF : ∀ j : Nat, j ≤ s.length → ∀ i : Nat, i ≤ j →
      WidthRawString f (TruncateFrontBuilder s i) 0
        ≤ WidthRawString f (TruncateFrontBuilder s j) 0)
    (hmonoM : ∀ j : Nat, j ≤ s.length → ∀ i : Nat, i ≤ j →
      WidthRawString f (TruncateMiddleBuilder s i) 0
        ≤ WidthRawString f (TruncateMiddleBuilder s j) 0)
    (hell : WidthRawString f Ellipsis 0 ≤ w)
    (hover : w < WidthRawString f s 0) :
    (∃ k : Nat, k ≤ s.length ∧ WidthRawString f (TruncateBackBuilder s k) 0 ≤ w ∧
      (∀ j : Nat, k < j → j ≤ s.length →
        w < WidthRawString f (TruncateBackBuilder s j) 0) ∧
      (TruncateBack f s w).1 = TruncateBackBuilder s k) ∧
    (∃ k : Nat, k ≤ s.length ∧ WidthRawString f (TruncateFrontBuilder s k) 0 ≤ w ∧
      (∀ j : Nat, k < j → j ≤ s.length →
        w < WidthRawString f (TruncateFrontBuilder s j) 0) ∧
      (TruncateFront f s w).1 = TruncateFrontBuilder s k) ∧
    (∃ k : Nat, k ≤ s.length ∧ WidthRawString f (TruncateMiddleBuilder s k) 0 ≤ w ∧
      (∀ j : Nat, k < j → j ≤ s.length →
        w < WidthRawString f (TruncateMiddleBuilder s j) 0) ∧
      (TruncateMiddle f s w).1 = TruncateMiddleBuilder s k) := by
  refine ⟨?_, ?_, ?_⟩
  · exact truncateEOM_largest f TruncateBackBuilder s w hmonoB
      (by rw [backBuilder_zero]; exact hell) hover
  · exact truncateEOM_largest f TruncateFrontBuilder s w hmonoF
      (by rw [frontBuilder_zero]; exact hell) hover
  · exact truncateEOM_largest f TruncateMiddleBuilder s w hmonoM
      (by rw [middleBuilder_zero]; exact hell) hover

/-- C5 counterexample: with the font whose advance table is computed by
CalculateAdvances from the concrete pixel atlas `cexImage` (and space,
glyph count taken from the same load path, letter spacing 0, scale 100),
truncating the string "'ab" (apostrophe, a, b) with the FRONT policy
returns width 6 at budget 6 but width 5 at the larger budget 7: the
truncation width is not non-decreasing in the width budget.  (The trial
widths here are not monotone in the retained count - the apostrophe
resolves to the wide open-quote glyph 96 only at the start of the
string, i.e. after a space - which is exactly the monotonicity
assumption the spec makes and this table violates.) -/
theorem truncate_width_budget_nonmono_cex :
    (6 : Int) ≤ 7 ∧
    (TruncateFront cexFont [39, 97, 98] 6).2 = 6 ∧
    (TruncateFront cexFont [39, 97, 98] 7).2 = 5 ∧
    ¬ (TruncateFront cexFont [39, 97, 98] 6).2
        ≤ (TruncateFront cexFont [39, 97, 98] 7).2 := by
  refine ⟨by norm_num, ?_, ?_, ?_⟩ <;> decide

/-- C5 amended: for a fixed string and policy, the truncation width is
non-decreasing in the width budget PROVIDED the font's advance, space
and kerning values are non-negative and the trial widths are
non-decreasing in the retained codepoint count (the spec's own
monotonicity assumption; the counterexample shows it can fail for a
pixel-derived table, taking the width from 6 down to 5 as the budget
grows from 6 to 7); and unconditionally, for any budget at least the raw
measured width, the returned string is the input unchanged and the
returned width is exactly the raw measured width (also through the
TruncateText dispatch for any truncating policy). -/
theorem truncate_monotone_and_exact (f : FontModel)
    (gsr : List Nat → Int → List Nat) (s : List Nat)
    (hadv : ∀ i, 0 ≤ f.advance i) (hsp : 0 ≤ f.space) (hkern : 0 ≤ f.kern)
    (hmono : ∀ j : Nat, j ≤ s.length → ∀ i : Nat, i ≤ j →
      WidthRawString f (gsr s i) 0 ≤ WidthRawString f (gsr s j) 0) :
    (∀ w₁ w₂ : Int, w₁ ≤ w₂ →
      (TruncateEndsOrMiddle f gsr s w₁).2 ≤ (TruncateEndsOrMiddle f gsr s w₂).2) ∧
    (∀ w : Int, WidthRawString f s 0 ≤ w →
      TruncateEndsOrMiddle f gsr s w = (s, WidthRawString f s 0) ∧
      TruncateBack f s w = (s, WidthRawString f s 0) ∧
      TruncateFront f s w = (s, WidthRawString f s 0) ∧
      TruncateMiddle f s w = (s, WidthRawString f s 0)) ∧
    (∀ l : Layout, 0 ≤ l.width → WidthRawString f s 0 ≤ l.width →
      l.truncate ≠ TruncType.NONE →
      TruncateText f s l = (s, WidthRawString f s 0)) := by
  have hW0 : ∀ cps : List Nat, 0 ≤ WidthRawString f cps 0 := fun cps =>
    widthRawString_nonneg f hadv hsp hkern cps 0
  have mknofit : ∀ w' : Int, w' < WidthRawString f (gsr s 0) 0 →
      ∀ k : Nat, k ≤ s.length → w' < WidthRawString f (gsr s k) 0 := by
    intro w' h0 k hkn
    refine lt_of_lt_of_le ?_ (hmono k hkn 0 (Nat.zero_le k))
    simpa using h0
  refine ⟨?_, ?_, ?_⟩
  · intro w₁ w₂ h12
    by_cases hr1 : WidthRawString f s 0 ≤ w₁
    · have hr2 : WidthRawString f s 0 ≤ w₂ := le_trans hr1 h12
      unfold TruncateEndsOrMiddle
      rw [if_pos hr1, if_pos hr2]
    · push_neg at hr1
      by_cases hr2 : WidthRawString f s 0 ≤ w₂
      · have hRHS : TruncateEndsOrMiddle f gsr s w₂ = (s, WidthRawString f s 0) := by
          unfold TruncateEndsOrMiddle
          rw [if_pos hr2]
        rw [hRHS]
        by_cases hf1 : WidthRawString f (gsr s 0) 0 ≤ w₁
        · rw [truncateEOM_spec f gsr s w₁ hmono hf1 hr1]
          dsimp only
          split
          · exact hW0 s
          · refine le_trans ?_ (le_of_lt hr1)
            exact Nat.findGreatest_spec
              (P := fun k => WidthRawString f (gsr s k) 0 ≤ w₁)
              (Nat.zero_le s.length) (by simpa using hf1)
        · push_neg at hf1
          rw [truncateEOM_nofit f gsr s w₁ (mknofit w₁ hf1) hr1]
          exact hW0 s
      · push_neg at hr2
        by_cases hf2 : WidthRawString f (gsr s 0) 0 ≤ w₂
        · by_cases hf1 : WidthRawString f (gsr s 0) 0 ≤ w₁
          · rw [truncateEOM_spec f gsr s w₁ hmono hf1 hr1,
              truncateEOM_spec f gsr s w₂ hmono hf2 hr2]
            dsimp only
            have hk12 : Nat.findGreatest
                  (fun k => WidthRawString f (gsr s k) 0 ≤ w₁) s.length
                ≤ Nat.findGreatest
                  (fun k => WidthRawString f (gsr s k) 0 ≤ w₂) s.length :=
              Nat.findGreatest_mono (fun n hn => le_trans hn h12) (le_refl s.length)
            have hP2 : WidthRawString f (gsr s (Nat.findGreatest
                (fun k => WidthRawString f (gsr s k) 0 ≤ w₂) s.length)) 0 ≤ w₂ :=
              Nat.findGreatest_spec
                (P := fun k => WidthRawString f (gsr s k) 0 ≤ w₂)
                (Nat.zero_le s.length) (by simpa using hf2)
            split
            · split
              · exact le_refl 0
              · exact hW0 _
            · next hz1 =>
              have hz2 : ¬ Nat.findGreatest
                  (fun k => WidthRawString f (gsr s k) 0 ≤ w₂) s.length = 0 := by
                omega
              rw [if_neg hz2]
              exact hmono _ (Nat.findGreatest_le s.length) _ hk12
          · push_neg at hf1
            rw [truncateEOM_nofit f gsr s w₁ (mknofit w₁ hf1) hr1,
              truncateEOM_spec f gsr s w₂ hmono hf2 hr2]
            dsimp only
            split
            · exact le_refl 0
            · exact hW0 _
        · push_neg at hf2
          have hf1 : w₁ < WidthRawString f (gsr s 0) 0 := lt_of_le_of_lt h12 hf2
          rw [truncateEOM_nofit f gsr s w₁ (mknofit w₁ hf1) hr1,
            truncateEOM_nofit f gsr s w₂ (mknofit w₂ hf2) hr2]
  · intro w hw
    refine ⟨?_, ?_, ?_, ?_⟩ <;>
      · simp only [TruncateBack, TruncateFront, TruncateMiddle, TruncateEndsOrMiddle]
        rw [if_pos hw]
  · intro l h0 hraw hnone
    obtain ⟨lw, la, lt⟩ := l
    unfold TruncateText
    rw [if_neg (by
      push_neg
      refine ⟨by omega, ?_⟩
      intro hla
      simp only at hnone
      intro hlt
      exact hnone hlt)]
    cases lt with
    | NONE => exact absurd rfl hnone
    | FRONT =>
      unfold TruncateFront TruncateEndsOrMiddle
      rw [if_pos hraw]
    | MIDDLE =>
      unfold TruncateMiddle TruncateEndsOrMiddle
      rw [if_pos hraw]
    | BACK =>
      unfold TruncateBack TruncateEndsOrMiddle
      rw [if_pos hraw]

/-- C1 witness: the theorem applied to the all-ones sample font, the
four-letter string AAAA and budget 4 (raw width 5, each trial width
count + 4, so only the ellipsis-only trial fits). -/
theorem truncate_largest_fitting_k_witness :
    (∃ k : Nat, k ≤ ([65, 65, 65, 65] : List Nat).length ∧
      WidthRawString constFont (TruncateBackBuilder [65, 65, 65, 65] k) 0 ≤ 4 ∧
      (∀ j : Nat, k < j → j ≤ ([65, 65, 65, 65] : List Nat).length →
        (4 : Int) < WidthRawString constFont (TruncateBackBuilder [65, 65, 65, 65] j) 0) ∧
      (TruncateBack constFont [65, 65, 65, 65] 4).1
        = TruncateBackBuilder [65, 65, 65, 65] k) ∧
    (∃ k : Nat, k ≤ ([65, 65, 65, 65] : List Nat).length ∧
      WidthRawString constFont (TruncateFrontBuilder [65, 65, 65, 65] k) 0 ≤ 4 ∧
      (∀ j : Nat, k < j → j ≤ ([65, 65, 65, 65] : List Nat).length →
        (4 : Int) < WidthRawString constFont (TruncateFrontBuilder [65, 65, 65, 65] j) 0) ∧
      (TruncateFront constFont [65, 65, 65, 65] 4).1
        = TruncateFrontBuilder [65, 65, 65, 65] k) ∧
    (∃ k : Nat, k ≤ ([65, 65, 65, 65] : List Nat).length ∧
      WidthRawString constFont (TruncateMiddleBuilder [65, 65, 65, 65] k) 0 ≤ 4 ∧
      (∀ j : Nat, k < j → j ≤ ([65, 65, 65, 65] : List Nat).length →
        (4 : Int) < WidthRawString constFont (TruncateMiddleBuilder [65, 65, 65, 65] j) 0) ∧
      (TruncateMiddle constFont [65, 65, 65, 65] 4).1
        = TruncateMiddleBuilder [65, 65, 65, 65] k) :=
  truncate_largest_fitting_k constFont [65, 65, 65, 65] 4
    (by decide) (by decide) (by decide) (by decide) (by decide)

/-- C5 witness: the amended theorem applied to the all-ones sample font
and the string AAAA with the BACK builder, at budgets 3 and 4 and at an
exact-fit budget 9. -/
theorem truncate_monotone_and_exact_witness :
    (TruncateEndsOrMiddle constFont TruncateBackBuilder [65, 65, 65, 65] 3).2
      ≤ (TruncateEndsOrMiddle constFont TruncateBackBuilder [65, 65, 65, 65] 4).2 ∧
    TruncateEndsOrMiddle constFont TruncateBackBuilder [65, 65, 65, 65] 9
      = ([65, 65, 65, 65], WidthRawString constFont [65, 65, 65, 65] 0) ∧
    TruncateText constFont [65, 65, 65, 65]
        { width := 9, align := Alignment.LEFT, truncate := TruncType.BACK }
      = ([65, 65, 65, 65], WidthRawString constFont [65, 65, 65, 65] 0) :=
  ⟨(truncate_monotone_and_exact constFont TruncateBackBuilder [65, 65, 65, 65]
      (by intro i; norm_num [constFont]) (by decide) (by decide) (by decide)).1 3 4 (by norm_num),
   ((truncate_monotone_and_exact constFont TruncateBackBuilder [65, 65, 65, 65]
      (by intro i; norm_num [constFont]) (by decide) (by decide) (by decide)).2.1 9 (by decide)).1,
   (truncate_monotone_and_exact constFont TruncateBackBuilder [65, 65, 65, 65]
      (by intro i; norm_num [constFont]) (by decide) (by decide) (by decide)).2.2
      { width := 9, align := Alignment.LEFT, truncate := TruncType.BACK }
      (by norm_num) (by decide) (by decide)⟩

/-- A successful in-bounds list read. -/
lemma get?_lt_length {s : List Nat} {i b : Nat} (hib : s.get? i = some b) :
    i < s.length := by
  obtain ⟨hi, -⟩ := List.get?_eq_some.mp hib
  exact hi

/-- Decoder progress: a successful decode strictly advances the offset
and never moves it past the string's length (every byte it consumed was
an in-bounds read). -/
lemma decode_progress (s : List Nat) (pos p : Nat)
    (h : (DecodeCodePoint s pos).2 = some p) : pos < p ∧ p ≤ s.length := by
  unfold DecodeCodePoint at h
  cases hb0 : s.get? pos with
  | none => simp only [hb0] at h; exact Option.noConfusion h
  | some b0 =>
    simp only [hb0] at h
    have hl0 := get?_lt_length hb0
    by_cases h1 : b0 < 0x80
    · rw [if_pos h1] at h
      simp at h
      omega
    rw [if_neg h1] at h
    by_cases h2 : 0xC0 ≤ b0 ∧ b0 < 0xE0
    · rw [if_pos h2] at h
      cases hb1 : s.get? (pos + 1) with
      | none => simp only [hb1] at h; exact Option.noConfusion h
      | some b1 =>
        simp only [hb1] at h
        have hl1 := get?_lt_length hb1
        by_cases hc : isContinuation b1 = true
        · rw [if_pos hc] at h
          simp at h
          omega
        · rw [if_neg hc] at h; simp at h
    rw [if_neg h2] at h
    by_cases h3 : 0xE0 ≤ b0 ∧ b0 < 0xF0
    · rw [if_pos h3] at h
      cases hb1 : s.get? (pos + 1) with
      | none => simp only [hb1] at h; exact Option.noConfusion h
      | some b1 =>
        cases hb2 : s.get? (pos + 2) with
        | none => simp only [hb1, hb2] at h; exact Option.noConfusion h
        | some b2 =>
          simp only [hb1, hb2] at h
          have hl2 := get?_lt_length hb2
          by_cases hc : isContinuation b1 = true ∧ isContinuation b2 = true
          · rw [if_pos hc] at h
            simp at h
            omega
          · rw [if_neg hc] at h; simp at h
    rw [if_neg h3] at h
    by_cases h4 : 0xF0 ≤ b0 ∧ b0 < 0xF8
    · rw [if_pos h4] at h
      cases hb1 : s.get? (pos + 1) with
      | none => simp only [hb1] at h; exact Option.noConfusion h
      | some b1 =>
        cases hb2 : s.get? (pos + 2) with
        | none => simp only [hb1, hb2] at h; exact Option.noConfusion h
        | some b2 =>
          cases hb3 : s.get? (pos + 3) with
          | none => simp only [hb1, hb2, hb3] at h; exact Option.noConfusion h
          | some b3 =>
            simp only [hb1, hb2, hb3] at h
            have hl3 := get?_lt_length hb3
            by_cases hc : isContinuation b1 = true ∧ isContinuation b2 = true
                ∧ isContinuation b3 = true
            · rw [if_pos hc] at h
              simp at h
              omega
            · rw [if_neg hc] at h; simp at h
    rw [if_neg h4] at h
    simp at h

/-- Decoder locality: a successful decode reads only in-bounds bytes, so
appending further bytes to the string does not change its result. -/
lemma decode_append (s ext : List Nat) (pos p : Nat)
    (h : (DecodeCodePoint s pos).2 = some p) :
    DecodeCodePoint (s ++ ext) pos = DecodeCodePoint s pos := by
  unfold DecodeCodePoint at h ⊢
  cases hb0 : s.get? pos with
  | none => simp only [hb0] at h; exact Option.noConfusion h
  | some b0 =>
    have he0 : (s ++ ext).get? pos = some b0 := by
      rw [List.get?_append (get?_lt_length hb0)]; exact hb0
    simp only [hb0] at h
    simp only [hb0, he0]
    by_cases h1 : b0 < 0x80
    · simp only [if_pos h1]
    rw [if_neg h1] at h
    simp only [if_neg h1]
    by_cases h2 : 0xC0 ≤ b0 ∧ b0 < 0xE0
    · rw [if_pos h2] at h
      simp only [if_pos h2]
      cases hb1 : s.get? (pos + 1) with
      | none => simp only [hb1] at h; exact Option.noConfusion h
      | some b1 =>
        have he1 : (s ++ ext).get? (pos + 1) = some b1 := by
          rw [List.get?_append (get?_lt_length hb1)]; exact hb1
        simp only [hb1, he1]
    rw [if_neg h2] at h
    simp only [if_neg h2]
    by_cases h3 : 0xE0 ≤ b0 ∧ b0 < 0xF0
    · rw [if_pos h3] at h
      simp only [if_pos h3]
      cases hb1 : s.get? (pos + 1) with
      | none => simp only [hb1] at h; exact Option.noConfusion h
      | some b1 =>
        cases hb2 : s.get? (pos + 2) with
        | none => simp only [hb1, hb2] at h; exact Option.noConfusion h
        | some b2 =>
          have he1 : (s ++ ext).get? (pos + 1) = some b1 := by
            rw [List.get?_append (get?_lt_length hb1)]; exact hb1
          have he2 : (s ++ ext).get? (pos + 2) = some b2 := by
            rw [List.get?_append (get?_lt_length hb2)]; exact hb2
          simp only [hb1, hb2, he1, he2]
    rw [if_neg h3] at h
    simp only [if_neg h3]
    by_cases h4 : 0xF0 ≤ b0 ∧ b0 < 0xF8
    · rw [if_pos h4] at h
      simp only [if_pos h4]
      cases hb1 : s.get? (pos + 1) with
      | none => simp only [hb1] at h; exact Option.noConfusion h
      | some b1 =>
        cases hb2 : s.get? (pos + 2) with
        | none => simp only [hb1, hb2] at h; exact Option.noConfusion h
        | some b2 =>
          cases hb3 : s.get? (pos + 3) with
          | none => simp only [hb1, hb2, hb3] at h; exact Option.noConfusion h
          | some b3 =>
            have he1 : (s ++ ext).get? (pos + 1) = some b1 := by
              rw [List.get?_append (get?_lt_length hb1)]; exact hb1
            have he2 : (s ++ ext).get? (pos + 2) = some b2 := by
              rw [List.get?_append (get?_lt_length hb2)]; exact hb2
            have he3 : (s ++ ext).get? (pos + 3) = some b3 := by
              rw [List.get?_append (get?_lt_length hb3)]; exact hb3
            simp only [hb1, hb2, hb3, he1, he2, he3]
    rw [if_neg h4] at h
    simp at h

/-- The byte-level measuring loop computes the same state for any two
sufficient fuel values: its value is reached within length - pos
iterations, i.e. the C++ while loop terminates. -/
lemma widthBytesGo_fuel (f : FontModel) (s : List Nat) :
    ∀ (fuel₁ fuel₂ pos : Nat) (st : WState),
      s.length - pos < fuel₁ → s.length - pos < fuel₂ →
      widthBytesGo f s fuel₁ pos st = widthBytesGo f s fuel₂ pos st := by
  intro fuel₁
  induction fuel₁ with
  | zero => intro fuel₂ pos st h1 _; omega
  | succ fuel₁ ih =>
    intro fuel₂ pos st h1 h2
    cases fuel₂ with
    | zero => omega
    | succ fuel₂ =>
      simp only [widthBytesGo]
      by_cases hp : pos < s.length
      · rw [if_pos hp, if_pos hp]
        cases hd : (DecodeCodePoint s pos).2 with
        | none => rfl
        | some p =>
          have hprog := decode_progress s pos p hd
          exact ih fuel₂ p _ (by omega) (by omega)
      · rw [if_neg hp, if_neg hp]

/-- C9 (decoder modelled from the spec): the decode-and-measure loop of
Font::WidthRawString terminates - its result is reached within
length - pos iterations for any sufficient fuel; a successful decode
strictly advances the offset and keeps it at most the length, so
repeated decoding from offset 0 either reaches the length or hits the
failure sentinel; on the failure sentinel the loop stops at once,
treating the malformed sequence as end-of-string; and a successful
decode never depends on bytes past the length (appending bytes does not
change it). -/
theorem decode_measure_loop_total :
    (∀ (s : List Nat) (pos p : Nat), (DecodeCodePoint s pos).2 = some p →
      pos < p ∧ p ≤ s.length) ∧
    (∀ (f : FontModel) (s : List Nat) (fuel₁ fuel₂ pos : Nat) (st : WState),
      s.length - pos < fuel₁ → s.length - pos < fuel₂ →
      widthBytesGo f s fuel₁ pos st = widthBytesGo f s fuel₂ pos st) ∧
    (∀ (f : FontModel) (s : List Nat) (fuel pos : Nat) (st : WState),
      pos < s.length → (DecodeCodePoint s pos).2 = none →
      widthBytesGo f s (fuel + 1) pos st = st) ∧
    (∀ (s ext : List Nat) (pos p : Nat), (DecodeCodePoint s pos).2 = some p →
      DecodeCodePoint (s ++ ext) pos = DecodeCodePoint s pos) := by
  refine ⟨decode_progress, ?_, ?_, decode_append⟩
  · intro f s fuel₁ fuel₂ pos st h1 h2
    exact widthBytesGo_fuel f s fuel₁ fuel₂ pos st h1 h2
  · intro f s fuel pos st hp hd
    simp only [widthBytesGo]
    rw [if_pos hp, hd]

/-- C9 witness: the loop-totality theorem applied to the concrete byte
string 0x41 0xC3 0x28 (a letter followed by a malformed two-byte
sequence: the lead byte 0xC3 is followed by the non-continuation byte
0x28). -/
theorem decode_measure_loop_total_witness :
    (0 < 1 ∧ 1 ≤ ([0x41, 0xC3, 0x28] : List Nat).length) ∧
    widthBytesGo constFont [0x41, 0xC3, 0x28] 4 0 widthInit
      = widthBytesGo constFont [0x41, 0xC3, 0x28] 7 0 widthInit ∧
    widthBytesGo constFont [0x41, 0xC3, 0x28] 3 1 (widthStep constFont widthInit 0x41)
      = widthStep constFont widthInit 0x41 ∧
    DecodeCodePoint ([0x41, 0xC3, 0x28] ++ [0x42]) 0
      = DecodeCodePoint [0x41, 0xC3, 0x28] 0 :=
  ⟨decode_measure_loop_total.1 [0x41, 0xC3, 0x28] 0 1 (by decide),
   decode_measure_loop_total.2.1 constFont [0x41, 0xC3, 0x28] 4 7 0 widthInit
     (by decide) (by decide),
   decode_measure_loop_total.2.2.1 constFont [0x41, 0xC3, 0x28] 2 1
     (widthStep constFont widthInit 0x41) (by decide) (by decide),
   decode_measure_loop_total.2.2.2 [0x41, 0xC3, 0x28] [0x42] 0 1 (by decide)⟩

end ES
